import Mathlib

/-!
Verification of the erpy evolutionary-optimization core against its
specification.  The embedding below translates the three source files
`erpy/framework/ea.py`, `erpy/framework/parameters.py` and
`erpy/evaluators/ray.py` into Lean definitions; theorems about those
definitions settle the specification claims.
-/

set_option maxHeartbeats 1000000

/-- Genome as used by the evaluator core: only its identity field
`genome_id` is load-bearing (the specification payload is opaque). -/
structure Genome where
  genome_id : Nat
  deriving DecidableEq, Repr

/-- EvaluationResult: opaque payload keyed by a genome id; the id is the
only field the core reads (`evaluation_result.genome_id` in ray.py). -/
structure EvaluationResult where
  genome_id : Nat
  deriving DecidableEq, Repr

/-- Modelled from the spec: the Population class itself is not under src/
(only its callers are).  Per the data model, a population owns a mapping
genome-id → Genome, a pending-evaluation set `to_evaluate`, an
under-evaluation collection `under_evaluation` (the code uses list
operations `append`/`remove` on it), a result list, a generation counter
and a cumulative evaluation counter.  The pending set is a Python `set`
(ea.py uses `to_evaluate.add`); a Python set is represented here by its
iteration sequence, a duplicate-free list, because iterating a set yields
a definite order that is a property of the set object's history, not of
its mathematical contents alone. -/
structure Population where
  genomes : List (Nat × Genome)
  to_evaluate : List Nat
  under_evaluation : List Nat
  evaluation_results : List EvaluationResult
  generation : Int
  num_evaluations : Int
  deriving DecidableEq, Repr

/-- Python dict lookup `genomes[genome_id]`: `some` of the mapped genome,
`none` when the key is absent (KeyError). -/
def lookupGenome (gs : List (Nat × Genome)) (k : Nat) : Option Genome :=
  (gs.find? (fun p => p.1 = k)).map (fun p => p.2)

/-- Well-formedness of the genome map: every key maps to a genome whose
`genome_id` field equals that key (ea.py inserts with
`population.genomes[genome.genome_id] = genome`). -/
def genomeMapWF (gs : List (Nat × Genome)) : Prop :=
  ∀ p ∈ gs, p.2.genome_id = p.1

instance (gs : List (Nat × Genome)) : Decidable (genomeMapWF gs) := by
  unfold genomeMapWF; infer_instance

/-- The eager list comprehension
`[all_genomes[genome_id] for genome_id in target_genome_ids]` in
RayDistributedEvaluator.evaluate: all lookups happen before any
submission; the first missing key raises KeyError (here: `none`). -/
def resolveTargets (gs : List (Nat × Genome)) : List Nat → Option (List Genome)
  | [] => some []
  | gid :: rest =>
    match lookupGenome gs gid, resolveTargets gs rest with
    | some g, some ts => some (g :: ts)
    | _, _ => none

/-- Outcome of RayDistributedEvaluator.evaluate.  `keyError` models the
dict lookup failing, `valueError` models `list.remove` on an absent
element, and `blocked` models the unbounded first pull waiting forever
because no completion ever arrives (the call does not return). -/
inductive EvalOutcome where
  | ok (pop : Population)
  | keyError
  | valueError
  | blocked
  deriving DecidableEq, Repr

/-- Harvest loop of RayDistributedEvaluator.evaluate (ray.py lines 46-55).
`events` is the pool's completion stream: the results that become
available, in completion order, each before the deadline in force at that
pull; the end of the list means nothing more arrives in time.
`timeout` mirrors the Python variable: `none` until the first successful
pull (block with no bound), `some 5` afterwards.  `outstanding` is the
number of submitted jobs not yet harvested (`pool.has_next()` is the test
`outstanding ≠ 0`).  A pull that finds the stream exhausted while the
timeout is bounded raises TimeoutError, which the `except` clause turns
into an ordinary `break`; with `timeout = none` the pull blocks forever. -/
def harvestLoop (gs : List (Nat × Genome)) :
    List EvaluationResult → Option Nat → Nat → Population → EvalOutcome
  | _, _, 0, pop => .ok pop
  | [], timeout, _ + 1, pop =>
    match timeout with
    | none => .blocked
    | some _ => .ok pop
  | r :: rest, _, m + 1, pop =>
    match lookupGenome gs r.genome_id with
    | none => .keyError
    | some g =>
      if pop.under_evaluation.contains g.genome_id then
        harvestLoop gs rest (some 5) m
          { pop with
              evaluation_results := pop.evaluation_results ++ [r],
              under_evaluation := pop.under_evaluation.erase g.genome_id }
      else .valueError

/-- RayDistributedEvaluator.evaluate (ray.py lines 32-55).  Submission
phase: resolve every pending id eagerly, submit each genome and append its
id to `under_evaluation`; only after the whole loop are `to_evaluate` and
`evaluation_results` cleared.  Harvest phase: `harvestLoop`. -/
def RayDistributedEvaluator.evaluate (pop : Population)
    (events : List EvaluationResult) : EvalOutcome :=
  match resolveTargets pop.genomes pop.to_evaluate with
  | none => .keyError
  | some targets =>
    harvestLoop pop.genomes events none targets.length
      { pop with
          under_evaluation :=
            pop.under_evaluation ++ targets.map (fun g => g.genome_id),
          to_evaluate := [],
          evaluation_results := [] }

/-- Intermediate population states during the submission loop: the state
right after the i-th `population.under_evaluation.append(genome.genome_id)`
(1 ≤ i ≤ n).  `to_evaluate` is untouched here — it is bulk-cleared only
after the loop. -/
def submitStates (pop : Population) (targets : List Genome) :
    List Population :=
  (List.range targets.length).map (fun i =>
    { pop with
        under_evaluation :=
          pop.under_evaluation ++
            ((targets.take (i + 1)).map (fun g => g.genome_id)) })

/-- Intermediate population states of the harvest loop: the state observed
at the top of each iteration, plus the final state. -/
def harvestStates (gs : List (Nat × Genome)) :
    List EvaluationResult → Option Nat → Nat → Population → List Population
  | _, _, 0, pop => [pop]
  | [], _, _ + 1, pop => [pop]
  | r :: rest, _, m + 1, pop =>
    match lookupGenome gs r.genome_id with
    | none => [pop]
    | some g =>
      if pop.under_evaluation.contains g.genome_id then
        pop ::
          harvestStates gs rest (some 5) m
            { pop with
                evaluation_results := pop.evaluation_results ++ [r],
                under_evaluation := pop.under_evaluation.erase g.genome_id }
      else [pop]

/-- Invariant of the harvest phase: the pending set is empty (it was
bulk-cleared right after submission), the under-evaluation list holds no
duplicates, and no already-harvested result's id is still under
evaluation. -/
def QueueInv (s : Population) : Prop :=
  s.to_evaluate = [] ∧ s.under_evaluation.Nodup ∧
    ∀ res ∈ s.evaluation_results, res.genome_id ∉ s.under_evaluation

/-- Submission order of RayDistributedEvaluator.evaluate: the sequence of
genomes handed to `pool.submit`, which is exactly the eagerly resolved
`target_genomes` list (ray.py lines 36-40); `none` when a pending id is
missing from the genome map. -/
def submissionOrder (pop : Population) : Option (List Genome) :=
  resolveTargets pop.genomes pop.to_evaluate

/-- Budgets of EAConfig that the termination predicate reads:
`num_generations` and `num_evaluations`, both optional (ea.py lines 26-27). -/
structure EABudgets where
  num_generations : Option Int
  num_evaluations : Option Int
  deriving DecidableEq, Repr

/-- EA.is_done (ea.py lines 105-111), transliterated: start from False, set
to True when a generation budget is configured and the generation counter
has reached it, set to True when an evaluation budget is configured and the
cumulative evaluation counter has reached it, return the flag. -/
def EA.is_done (cfg : EABudgets) (pop : Population) : Bool :=
  let d0 := false
  let d1 :=
    match cfg.num_generations with
    | some n => if pop.generation ≥ n then true else d0
    | none => d0
  let d2 :=
    match cfg.num_evaluations with
    | some n => if pop.num_evaluations ≥ n then true else d1
    | none => d1
  d2

/-- Observable calls made by one iteration of EA.run's generational loop:
the population hooks and the role-phase actions, one constructor per call
site in ea.py lines 124-138. -/
inductive PhaseEvent where
  | before_reproduction
  | reproduce
  | after_reproduction
  | before_evaluation
  | evaluate
  | after_evaluation
  | before_logging
  | log
  | after_logging
  | before_saving
  | save
  | after_saving
  | before_selection
  | select
  | after_selection
  deriving DecidableEq, Repr

/-- Role behaviours injected into the loop: each hook and phase action is
an arbitrary population transformer (the concrete selector, reproducer,
logger, saver, evaluator and the population's own hooks are external
collaborators; EA.run only fixes the order in which they are called). -/
structure Roles where
  before_reproduction : Population → Population
  reproduce : Population → Population
  after_reproduction : Population → Population
  before_evaluation : Population → Population
  evaluate : Population → Population
  after_evaluation : Population → Population
  before_logging : Population → Population
  log : Population → Population
  after_logging : Population → Population
  before_saving : Population → Population
  save : Population → Population
  after_saving : Population → Population
  before_selection : Population → Population
  select : Population → Population
  after_selection : Population → Population

/-- One iteration of EA.run's while-loop body (ea.py lines 124-139): the
fifteen calls in source order, then `population.generation += 1`.  Returns
the new population and the emitted call trace. -/
def eaStep (r : Roles) (pop : Population) : Population × List PhaseEvent :=
  let p1 := r.before_reproduction pop
  let p2 := r.reproduce p1
  let p3 := r.after_reproduction p2
  let p4 := r.before_evaluation p3
  let p5 := r.evaluate p4
  let p6 := r.after_evaluation p5
  let p7 := r.before_logging p6
  let p8 := r.log p7
  let p9 := r.after_logging p8
  let p10 := r.before_saving p9
  let p11 := r.save p10
  let p12 := r.after_saving p11
  let p13 := r.before_selection p12
  let p14 := r.select p13
  let p15 := r.after_selection p14
  ({ p15 with generation := p15.generation + 1 },
   [.before_reproduction, .reproduce, .after_reproduction,
    .before_evaluation, .evaluate, .after_evaluation,
    .before_logging, .log, .after_logging,
    .before_saving, .save, .after_saving,
    .before_selection, .select, .after_selection])

/-- The fixed call sequence of one generation. -/
def generationTrace : List PhaseEvent :=
  [.before_reproduction, .reproduce, .after_reproduction,
   .before_evaluation, .evaluate, .after_evaluation,
   .before_logging, .log, .after_logging,
   .before_saving, .save, .after_saving,
   .before_selection, .select, .after_selection]

/-- EA.run's generational loop (`while not self.is_done(): ...`),
fuel-indexed so that the Lean model is total; the fuel bounds how many
iterations are unrolled and plays no role in which iteration runs. -/
def eaRun (r : Roles) (cfg : EABudgets) :
    Nat → Population → Population × List PhaseEvent
  | 0, pop => (pop, [])
  | fuel + 1, pop =>
    if EA.is_done cfg pop then (pop, [])
    else
      let s := eaStep r pop
      let t := eaRun r cfg fuel s.1
      (t.1, s.2 ++ t.2)

/-- Errors raised by parameter writes: `typeError` for the immutable
variants (and for the Range setter's float-vs-list comparison),
`assertionError` for a failed membership assert. -/
inductive WriteError where
  | typeError
  | assertionError
  deriving DecidableEq, Repr

/-- np.clip(x, lo, hi), equivalent to min(max(x, lo), hi).  Values are
modelled over ℚ: the clip/sort projections are pure order operations, no
floating-point arithmetic is involved. -/
def npClip (lo hi x : ℚ) : ℚ :=
  min (max x lo) hi

/-- FixedParameter: holds a value set at construction. -/
structure FixedParameter (α : Type) where
  value : α
  deriving DecidableEq, Repr

/-- FixedParameter value setter (parameters.py lines 46-48): raises
TypeError unconditionally. -/
def FixedParameter.setValue (_p : FixedParameter α) (_v : α) :
    Except WriteError (FixedParameter α) :=
  .error .typeError

/-- SynchronizedParameter: reads through to a linked parameter; only its
setter matters for the claims, so the link is kept abstract as the linked
parameter's current value. -/
structure SynchronizedParameter (α : Type) where
  linked_value : α
  deriving DecidableEq, Repr

/-- SynchronizedParameter value setter (parameters.py lines 66-68): raises
TypeError unconditionally. -/
def SynchronizedParameter.setValue (_p : SynchronizedParameter α) (_v : α) :
    Except WriteError (SynchronizedParameter α) :=
  .error .typeError

/-- ContinuousParameter: bounds and an optional materialized value
(`_value` is None until set or drawn). -/
structure ContinuousParameter where
  low : ℚ
  high : ℚ
  value? : Option ℚ
  deriving DecidableEq, Repr

/-- ContinuousParameter value property read (parameters.py lines 77-83):
draw if unset (the random draw is supplied as the oracle `draw`), then
re-clip into bounds, store, and return. -/
def ContinuousParameter.readValue (p : ContinuousParameter) (draw : ℚ) :
    ℚ × ContinuousParameter :=
  let v0 := match p.value? with
    | none => draw
    | some v => v
  let v1 := npClip p.low p.high v0
  (v1, { p with value? := some v1 })

/-- ContinuousParameter value setter (parameters.py lines 85-87): plain
assignment, no validation, never raises. -/
def ContinuousParameter.setValue (p : ContinuousParameter) (v : ℚ) :
    ContinuousParameter :=
  { p with value? := some v }

/-- RangeParameter: bounds and an optional materialized value; the stored
value is an array of any length the constructor was given (the constructor
performs no validation), drawn with size 2 when unset. -/
structure RangeParameter where
  low : ℚ
  high : ℚ
  value? : Option (List ℚ)
  deriving DecidableEq, Repr

/-- RangeParameter value property read (parameters.py lines 100-108): draw
a pair if unset (oracle `draw`), clip every element into bounds, sort
ascending, store the projected value, and return it. -/
def RangeParameter.readValue (p : RangeParameter) (draw : List ℚ) :
    List ℚ × RangeParameter :=
  let v0 := match p.value? with
    | none => draw
    | some v => v
  let v1 := v0.map (npClip p.low p.high)
  let v2 := v1.insertionSort (fun a b => a ≤ b)
  (v2, { p with value? := some v2 })

/-- RangeParameter value setter (parameters.py lines 110-114): the assert
evaluates `self.low <= self.value <= self.high`, i.e. it reads the value
PROPERTY (materializing, clipping and sorting the current stored value, not
the argument) and then compares a float with a list, which raises TypeError
in Python 3 for every write, whatever the written value is; the property
read's mutation of `_value` has already happened when the TypeError
propagates. -/
def RangeParameter.setValue (p : RangeParameter) (_v : List ℚ)
    (draw : List ℚ) : WriteError × RangeParameter :=
  (.typeError, (p.readValue draw).2)

/-- DiscreteParameter: an option list and an optional current value; the
constructor stores the given value without validation. -/
structure DiscreteParameter (α : Type) where
  options : List α
  value? : Option α
  deriving DecidableEq, Repr

/-- DiscreteParameter value property read (parameters.py lines 125-129):
draw uniformly from the options if unset (oracle `draw`), return the
stored value; no projection, no validation. -/
def DiscreteParameter.readValue [DecidableEq α] (p : DiscreteParameter α)
    (draw : α) : α × DiscreteParameter α :=
  match p.value? with
  | none => (draw, { p with value? := some draw })
  | some v => (v, p)

/-- DiscreteParameter value setter (parameters.py lines 131-134): assert
membership in the options, then store. -/
def DiscreteParameter.setValue [DecidableEq α] (p : DiscreteParameter α)
    (v : α) : Except WriteError (DiscreteParameter α) :=
  if v ∈ p.options then .ok { p with value? := some v }
  else .error .assertionError

/-- MultiDiscreteParameter: options, size bounds (`max_size` defaults to
the option count), an optional current value list and the sort-on-read
flag; the constructor stores the given value without any membership, size
or duplicate validation. -/
structure MultiDiscreteParameter (α : Type) where
  options : List α
  min_size : Nat
  max_size : Nat
  value? : Option (List α)
  sorted : Bool
  deriving DecidableEq, Repr

/-- MultiDiscreteParameter value property read (parameters.py lines
149-155): draw without replacement if unset (oracle `draw`), sort the
stored value in place when the `sorted` flag is set, return it. -/
def MultiDiscreteParameter.readValue [LinearOrder α]
    (p : MultiDiscreteParameter α) (draw : List α) :
    List α × MultiDiscreteParameter α :=
  let v0 := match p.value? with
    | none => draw
    | some v => v
  let v1 := if p.sorted then v0.insertionSort (fun a b => a ≤ b) else v0
  (v1, { p with value? := some v1 })

/-- MultiDiscreteParameter value setter (parameters.py lines 157-161):
assert membership in the options element-wise, then store; there is no
size or duplicate check. -/
def MultiDiscreteParameter.setValue [DecidableEq α]
    (p : MultiDiscreteParameter α) (vs : List α) :
    Except WriteError (MultiDiscreteParameter α) :=
  if vs.all (fun v => v ∈ p.options) then .ok { p with value? := some vs }
  else .error .assertionError

/-- Worker actor: opaque for this core, tagged by creation index only. -/
structure Worker where
  tag : Nat
  deriving DecidableEq, Repr

/-- DistributedEvaluatorConfig (ray.py lines 11-15): worker count and the
per-worker core reservation; the actor factory is passed separately. -/
structure DistributedEvaluatorConfig where
  num_workers : Nat
  num_cores_per_worker : Nat
  deriving DecidableEq, Repr

/-- RayDistributedEvaluator.config property (ray.py lines 24-26):
`return self.config` — the property calls itself with no base case.  The
fuel index counts permitted recursion depth; no depth yields a value, which
models the Python RecursionError. -/
def RayDistributedEvaluator.configProp
    (stored : DistributedEvaluatorConfig) :
    Nat → Option DistributedEvaluatorConfig
  | 0 => none
  | depth + 1 => RayDistributedEvaluator.configProp stored depth

/-- Worker-pool construction as _build_pool intends it: one call of the
actor factory per worker slot,
`[actor_generator(config) for _ in range(num_workers)]`. -/
def buildPool (cfg : DistributedEvaluatorConfig)
    (actor_generator : DistributedEvaluatorConfig → Worker) : List Worker :=
  (List.range cfg.num_workers).map (fun _ => actor_generator cfg)

/-- RayDistributedEvaluator.__init__ (ray.py lines 19-22): stores the
config, then `self.pool = self._build_pool()`; _build_pool's first read of
`self.config.num_workers` goes through the self-recursive config property,
so construction only produces an evaluator if that property produces a
value. -/
def RayDistributedEvaluator.tryInit (stored : DistributedEvaluatorConfig)
    (actor_generator : DistributedEvaluatorConfig → Worker) (depth : Nat) :
    Option (List Worker) :=
  match RayDistributedEvaluator.configProp stored depth with
  | none => none
  | some cfg => some (buildPool cfg actor_generator)

/-! ## Support lemmas -/

theorem lookupGenome_wf {gs : List (Nat × Genome)} {k : Nat} {g : Genome}
    (hWF : genomeMapWF gs) (h : lookupGenome gs k = some g) :
    g.genome_id = k := by
  unfold lookupGenome at h
  cases hf : gs.find? (fun p => p.1 = k) with
  | none => rw [hf] at h; simp at h
  | some p =>
    rw [hf] at h
    have h2 : p.2 = g := by simpa using h
    have hmem := List.mem_of_find?_eq_some hf
    have hpk := List.find?_some hf
    simp only [decide_eq_true_eq] at hpk
    rw [← h2, hWF p hmem, hpk]

theorem resolveTargets_isSome {gs : List (Nat × Genome)} :
    ∀ {ids : List Nat} {ts : List Genome},
      resolveTargets gs ids = some ts →
      ∀ gid ∈ ids, (lookupGenome gs gid).isSome := by
  intro ids
  induction ids with
  | nil => intro ts _ gid hm; cases hm
  | cons gid0 rest ih =>
    intro ts h gid hm
    unfold resolveTargets at h
    cases hl : lookupGenome gs gid0 with
    | none => rw [hl] at h; simp at h
    | some g =>
      rw [hl] at h
      cases hr : resolveTargets gs rest with
      | none => rw [hr] at h; simp at h
      | some ts' =>
        cases hm with
        | head => rw [hl]; rfl
        | tail _ hm' => exact ih hr gid hm'

theorem resolveTargets_map {gs : List (Nat × Genome)} (hWF : genomeMapWF gs) :
    ∀ {ids : List Nat} {ts : List Genome},
      resolveTargets gs ids = some ts →
      ts.map (fun g => g.genome_id) = ids := by
  intro ids
  induction ids with
  | nil => intro ts h; unfold resolveTargets at h; cases h; rfl
  | cons gid0 rest ih =>
    intro ts h
    unfold resolveTargets at h
    cases hl : lookupGenome gs gid0 with
    | none => rw [hl] at h; simp at h
    | some g =>
      rw [hl] at h
      cases hr : resolveTargets gs rest with
      | none => rw [hr] at h; simp at h
      | some ts' =>
        rw [hr] at h
        cases h
        simp only [List.map_cons, lookupGenome_wf hWF hl, ih hr]

theorem resolveTargets_length {gs : List (Nat × Genome)}
    (hWF : genomeMapWF gs) {ids : List Nat} {ts : List Genome}
    (h : resolveTargets gs ids = some ts) : ts.length = ids.length := by
  have := resolveTargets_map hWF h
  calc ts.length = (ts.map (fun g => g.genome_id)).length := by
        rw [List.length_map]
    _ = ids.length := by rw [this]

theorem harvestLoop_drains {gs : List (Nat × Genome)} (hWF : genomeMapWF gs) :
    ∀ (events : List EvaluationResult) (pop : Population) (t : Option Nat),
      pop.under_evaluation.Nodup →
      (events.map (fun r => r.genome_id)).Perm pop.under_evaluation →
      (∀ gid ∈ pop.under_evaluation, (lookupGenome gs gid).isSome) →
      harvestLoop gs events t events.length pop =
        .ok { pop with
                under_evaluation := [],
                evaluation_results := pop.evaluation_results ++ events } := by
  intro events
  induction events with
  | nil =>
    intro pop t _ hperm _
    have hu : pop.under_evaluation = [] := hperm.symm.eq_nil
    obtain ⟨g1, g2, g3, g4, g5, g6⟩ := pop
    simp only at hu
    subst hu
    simp [harvestLoop]
  | cons r rest ih =>
    intro pop t hnd hperm hres
    have hmem : r.genome_id ∈ pop.under_evaluation :=
      hperm.subset (by simp)
    obtain ⟨g, hg⟩ := Option.isSome_iff_exists.mp (hres _ hmem)
    have hgid : g.genome_id = r.genome_id := lookupGenome_wf hWF hg
    have hcont : pop.under_evaluation.contains g.genome_id = true := by
      rw [hgid]; simpa using hmem
    have hperm' : (rest.map (fun r => r.genome_id)).Perm
        (pop.under_evaluation.erase r.genome_id) :=
      (List.cons_perm_iff_perm_erase.mp (by simpa using hperm)).2
    have hstep := ih
      { pop with
          evaluation_results := pop.evaluation_results ++ [r],
          under_evaluation := pop.under_evaluation.erase g.genome_id }
      (some 5)
      (by simpa using hnd.erase g.genome_id)
      (by rw [hgid] at *; simpa using hperm')
      (by
        intro gid hgm
        exact hres gid (List.mem_of_mem_erase (by simpa using hgm)))
    show harvestLoop gs (r :: rest) t (rest.length + 1) pop = _
    rw [harvestLoop, hg]
    simp only [hcont, if_true]
    rw [hstep]
    simp [List.append_assoc]

theorem harvestLoop_timeout_drains {gs : List (Nat × Genome)}
    (hWF : genomeMapWF gs) :
    ∀ (events : List EvaluationResult) (pop : Population) (t : Option Nat)
      (outstanding : Nat),
      pop.under_evaluation.Nodup →
      (events.map (fun r => r.genome_id)).Nodup →
      (∀ r ∈ events, r.genome_id ∈ pop.under_evaluation) →
      (∀ gid ∈ pop.under_evaluation, (lookupGenome gs gid).isSome) →
      events.length < outstanding →
      (events = [] → t.isSome) →
      harvestLoop gs events t outstanding pop =
        .ok { pop with
                under_evaluation := pop.under_evaluation.filter
                  (fun gid => gid ∉ events.map (fun r => r.genome_id)),
                evaluation_results := pop.evaluation_results ++ events } := by
  intro events
  induction events with
  | nil =>
    intro pop t outstanding _ _ _ _ hlt ht
    obtain ⟨m, rfl⟩ : ∃ m, outstanding = m + 1 := by
      cases outstanding with
      | zero => omega
      | succ m => exact ⟨m, rfl⟩
    obtain ⟨τ, rfl⟩ := Option.isSome_iff_exists.mp (ht rfl)
    obtain ⟨g1, g2, g3, g4, g5, g6⟩ := pop
    simp [harvestLoop]
  | cons r rest ih =>
    intro pop t outstanding hnd hend hein hres hlt ht
    obtain ⟨m, rfl⟩ : ∃ m, outstanding = m + 1 := by
      cases outstanding with
      | zero => omega
      | succ m => exact ⟨m, rfl⟩
    have hmem : r.genome_id ∈ pop.under_evaluation := hein r (by simp)
    obtain ⟨g, hg⟩ := Option.isSome_iff_exists.mp (hres _ hmem)
    have hgid : g.genome_id = r.genome_id := lookupGenome_wf hWF hg
    have hcont : pop.under_evaluation.contains g.genome_id = true := by
      rw [hgid]; simpa using hmem
    have hnotin : r.genome_id ∉ rest.map (fun r => r.genome_id) := by
      have := hend
      simp only [List.map_cons, List.nodup_cons] at this
      exact this.1
    have hstep := ih
      { pop with
          evaluation_results := pop.evaluation_results ++ [r],
          under_evaluation := pop.under_evaluation.erase g.genome_id }
      (some 5) m
      (by simpa using hnd.erase g.genome_id)
      (by
        simp only [List.map_cons, List.nodup_cons] at hend
        exact hend.2)
      (by
        intro r' hr'
        have hne : r'.genome_id ≠ r.genome_id := by
          intro hEq
          exact hnotin (hEq ▸ List.mem_map_of_mem (fun r => r.genome_id) hr')
        have : r'.genome_id ∈ pop.under_evaluation := hein r' (by simp [hr'])
        rw [hgid]
        simpa using (List.mem_erase_of_ne hne).mpr this)
      (by
        intro gid hgm
        exact hres gid (List.mem_of_mem_erase (by simpa using hgm)))
      (by simp at hlt; omega)
      (by intro _; rfl)
    show harvestLoop gs (r :: rest) t (m + 1) pop = _
    rw [harvestLoop, hg]
    simp only [hcont, if_true]
    rw [hstep]
    have hfil : (pop.under_evaluation.erase g.genome_id).filter
        (fun gid => gid ∉ rest.map (fun r => r.genome_id)) =
        pop.under_evaluation.filter
          (fun gid => gid ∉ (r :: rest).map (fun r => r.genome_id)) := by
      rw [hgid, hnd.erase_eq_filter, List.filter_filter]
      apply List.filter_congr
      intro gid _
      by_cases hgr : gid = r.genome_id <;>
        simp [hgr, List.mem_cons, not_or]
    rw [hfil]
    simp [List.append_assoc]

theorem queueInv_harvest_step {gs : List (Nat × Genome)}
    (hWF : genomeMapWF gs) {pop : Population} {r : EvaluationResult}
    {g : Genome} (hg : lookupGenome gs r.genome_id = some g)
    (h : QueueInv pop) :
    QueueInv
      { pop with
          evaluation_results := pop.evaluation_results ++ [r],
          under_evaluation := pop.under_evaluation.erase g.genome_id } := by
  have hgid : g.genome_id = r.genome_id := lookupGenome_wf hWF hg
  refine ⟨h.1, by simpa using h.2.1.erase g.genome_id, ?_⟩
  intro res hresm
  simp only [List.mem_append, List.mem_singleton] at hresm
  cases hresm with
  | inl hin =>
    intro hmem
    exact h.2.2 res hin (List.mem_of_mem_erase (by simpa using hmem))
  | inr hEq =>
    subst hEq
    rw [← hgid]
    simpa using h.2.1.not_mem_erase

theorem harvestStates_inv {gs : List (Nat × Genome)} (hWF : genomeMapWF gs) :
    ∀ (events : List EvaluationResult) (t : Option Nat) (outstanding : Nat)
      (pop : Population), QueueInv pop →
      ∀ s ∈ harvestStates gs events t outstanding pop, QueueInv s := by
  intro events
  induction events with
  | nil =>
    intro t outstanding pop hinv s hs
    cases outstanding with
    | zero =>
      simp only [harvestStates, List.mem_singleton] at hs
      exact hs ▸ hinv
    | succ m =>
      simp only [harvestStates, List.mem_singleton] at hs
      exact hs ▸ hinv
  | cons r rest ih =>
    intro t outstanding pop hinv s hs
    cases outstanding with
    | zero =>
      simp only [harvestStates, List.mem_singleton] at hs
      exact hs ▸ hinv
    | succ m =>
      rw [harvestStates] at hs
      split at hs
      · simp only [List.mem_singleton] at hs
        exact hs ▸ hinv
      · rename_i g hg
        split at hs
        · simp only [List.mem_cons] at hs
          cases hs with
          | inl hEq => exact hEq ▸ hinv
          | inr hrec =>
            exact ih (some 5) m _ (queueInv_harvest_step hWF hg hinv) s hrec
        · simp only [List.mem_singleton] at hs
          exact hs ▸ hinv

theorem harvestLoop_ok_inv {gs : List (Nat × Genome)} (hWF : genomeMapWF gs) :
    ∀ (events : List EvaluationResult) (t : Option Nat) (outstanding : Nat)
      (pop p' : Population), QueueInv pop →
      harvestLoop gs events t outstanding pop = .ok p' → QueueInv p' := by
  intro events
  induction events with
  | nil =>
    intro t outstanding pop p' hinv h
    cases outstanding with
    | zero =>
      simp only [harvestLoop, EvalOutcome.ok.injEq] at h
      exact h ▸ hinv
    | succ m =>
      cases t with
      | none => simp [harvestLoop] at h
      | some τ =>
        simp only [harvestLoop, EvalOutcome.ok.injEq] at h
        exact h ▸ hinv
  | cons r rest ih =>
    intro t outstanding pop p' hinv h
    cases outstanding with
    | zero =>
      simp only [harvestLoop, EvalOutcome.ok.injEq] at h
      exact h ▸ hinv
    | succ m =>
      rw [harvestLoop] at h
      split at h
      · cases h
      · rename_i g hg
        split at h
        · exact ih (some 5) m _ p' (queueInv_harvest_step hWF hg hinv) h
        · cases h

theorem npClip_mem_Icc {lo hi : ℚ} (h : lo ≤ hi) (x : ℚ) :
    lo ≤ npClip lo hi x ∧ npClip lo hi x ≤ hi := by
  unfold npClip
  exact ⟨le_min (le_max_right x lo) h, min_le_right _ _⟩

theorem npClip_eq_self {lo hi x : ℚ} (h1 : lo ≤ x) (h2 : x ≤ hi) :
    npClip lo hi x = x := by
  unfold npClip
  rw [max_eq_left h1, min_eq_left h2]

theorem insertionSort_idem {α : Type} [LinearOrder α] (l : List α) :
    (l.insertionSort (fun a b => a ≤ b)).insertionSort (fun a b => a ≤ b) =
      l.insertionSort (fun a b => a ≤ b) :=
  (List.sorted_insertionSort (fun a b => a ≤ b) l).insertionSort_eq

theorem range_projection_core (low high : ℚ) (v0 draw2 : List ℚ)
    (hlh : low ≤ high) (hlen : v0.length = 2) :
    ((v0.map (npClip low high)).insertionSort
      (fun a b => a ≤ b)).length = 2 ∧
    List.Sorted (fun a b => a ≤ b)
      ((v0.map (npClip low high)).insertionSort (fun a b => a ≤ b)) ∧
    (∀ x ∈ (v0.map (npClip low high)).insertionSort (fun a b => a ≤ b),
      low ≤ x ∧ x ≤ high) ∧
    RangeParameter.readValue
        ⟨low, high,
          some ((v0.map (npClip low high)).insertionSort
            (fun a b => a ≤ b))⟩ draw2 =
      ((v0.map (npClip low high)).insertionSort (fun a b => a ≤ b),
        ⟨low, high,
          some ((v0.map (npClip low high)).insertionSort
            (fun a b => a ≤ b))⟩) := by
  set v2 := (v0.map (npClip low high)).insertionSort (fun a b => a ≤ b)
    with hv2
  have hmem : ∀ x ∈ v2, low ≤ x ∧ x ≤ high := by
    intro x hx
    rw [hv2, List.mem_insertionSort] at hx
    obtain ⟨y, _, rfl⟩ := List.mem_map.mp hx
    exact npClip_mem_Icc hlh y
  have hsorted : List.Sorted (fun a b => a ≤ b) v2 :=
    List.sorted_insertionSort (fun a b => a ≤ b) _
  refine ⟨?_, hsorted, hmem, ?_⟩
  · rw [hv2, List.length_insertionSort, List.length_map, hlen]
  · unfold RangeParameter.readValue
    simp only
    have hclip : v2.map (npClip low high) = v2 := by
      have hid : ∀ x ∈ v2, npClip low high x = x := fun x hx =>
        npClip_eq_self (hmem x hx).1 (hmem x hx).2
      calc v2.map (npClip low high) = v2.map id := List.map_congr_left hid
        _ = v2 := List.map_id v2
    rw [hclip, hsorted.insertionSort_eq]

/-! ## Claim theorems -/

/-- C1: for a population whose pending ids are all resolvable in the
genome map (and nothing already under evaluation), when every submitted
job completes before the harvest deadline — the completion stream `events`
carries exactly one result per pending id — evaluate() returns normally
with the pending set empty, the under-evaluation set empty, and the result
list holding exactly n = |pending| entries with pairwise distinct genome
ids. -/
theorem distributed_evaluate_drains_pending (pop : Population)
    (events : List EvaluationResult) (targets : List Genome)
    (hWF : genomeMapWF pop.genomes)
    (hnodup : pop.to_evaluate.Nodup)
    (hresolve : resolveTargets pop.genomes pop.to_evaluate = some targets)
    (hunder : pop.under_evaluation = [])
    (hperm : (events.map (fun r => r.genome_id)).Perm pop.to_evaluate) :
    RayDistributedEvaluator.evaluate pop events =
      .ok { pop with to_evaluate := [], under_evaluation := [],
                     evaluation_results := events } ∧
    events.length = pop.to_evaluate.length ∧
    (events.map (fun r => r.genome_id)).Nodup := by
  obtain ⟨gmap, tev, und, res, gen, nev⟩ := pop
  simp only at hWF hnodup hresolve hunder hperm ⊢
  subst hunder
  have hmap := resolveTargets_map hWF hresolve
  have hlt : (events.map (fun r => r.genome_id)).length = tev.length :=
    hperm.length_eq
  simp only [List.length_map] at hlt
  have hlen : targets.length = events.length := by
    have h1 := resolveTargets_length hWF hresolve
    omega
  refine ⟨?_, hlt, hperm.nodup_iff.mpr hnodup⟩
  unfold RayDistributedEvaluator.evaluate
  simp only [hresolve, List.nil_append, hlen]
  have hdr := harvestLoop_drains hWF events
    ⟨gmap, [], targets.map (fun g => g.genome_id), [], gen, nev⟩ none
    (by simpa only [hmap] using hnodup)
    (by simpa only [hmap] using hperm)
    (by
      intro gid hm
      rw [hmap] at hm
      exact resolveTargets_isSome hresolve gid hm)
  simpa only [List.nil_append] using hdr

/-- C1 witness: pending = {1,2,3}, three workers finishing in the order
2, 3, 1 before the deadline. -/
theorem distributed_evaluate_drains_pending_witness :
    RayDistributedEvaluator.evaluate
      ⟨[(1, ⟨1⟩), (2, ⟨2⟩), (3, ⟨3⟩)], [1, 2, 3], [], [], 0, 0⟩
      [⟨2⟩, ⟨3⟩, ⟨1⟩] =
      .ok ⟨[(1, ⟨1⟩), (2, ⟨2⟩), (3, ⟨3⟩)], [], [], [⟨2⟩, ⟨3⟩, ⟨1⟩], 0, 0⟩ ∧
    ([⟨2⟩, ⟨3⟩, ⟨1⟩] : List EvaluationResult).length =
      ([1, 2, 3] : List Nat).length ∧
    (([⟨2⟩, ⟨3⟩, ⟨1⟩] : List EvaluationResult).map
      (fun r => r.genome_id)).Nodup :=
  distributed_evaluate_drains_pending
    ⟨[(1, ⟨1⟩), (2, ⟨2⟩), (3, ⟨3⟩)], [1, 2, 3], [], [], 0, 0⟩
    [⟨2⟩, ⟨3⟩, ⟨1⟩] [⟨1⟩, ⟨2⟩, ⟨3⟩]
    (by decide) (by decide) (by decide) rfl (by decide)

/-- C2: with at least one job submitted and no completion ever arriving,
the first pull blocks with no bound (the call never returns, modelled as
`blocked`); once at least one result has been harvested, every further
pull runs under the bounded deadline, and when the completion stream dries
up with jobs still outstanding the TimeoutError is swallowed and the loop
ends normally: still-outstanding ids stay in under-evaluation and only the
harvested results are in the result list. -/
theorem harvest_first_pull_unbounded_then_bounded (pop : Population)
    (targets : List Genome)
    (hWF : genomeMapWF pop.genomes)
    (hnodup : pop.to_evaluate.Nodup)
    (hresolve : resolveTargets pop.genomes pop.to_evaluate = some targets)
    (hunder : pop.under_evaluation = []) :
    (pop.to_evaluate ≠ [] →
      RayDistributedEvaluator.evaluate pop [] = .blocked) ∧
    (∀ events : List EvaluationResult, events ≠ [] →
      (events.map (fun r => r.genome_id)).Nodup →
      (∀ r ∈ events, r.genome_id ∈ pop.to_evaluate) →
      events.length < pop.to_evaluate.length →
      RayDistributedEvaluator.evaluate pop events =
        .ok { pop with
                to_evaluate := [],
                under_evaluation := pop.to_evaluate.filter
                  (fun gid => gid ∉ events.map (fun r => r.genome_id)),
                evaluation_results := events }) := by
  obtain ⟨gmap, tev, und, res, gen, nev⟩ := pop
  simp only at hWF hnodup hresolve hunder ⊢
  subst hunder
  have hmap := resolveTargets_map hWF hresolve
  have htlen := resolveTargets_length hWF hresolve
  constructor
  · intro hne
    unfold RayDistributedEvaluator.evaluate
    simp only [hresolve]
    obtain ⟨m, hm⟩ : ∃ m, targets.length = m + 1 := by
      cases hx : targets.length with
      | zero =>
        rw [hx] at htlen
        exact absurd (List.length_eq_zero.mp htlen.symm) hne
      | succ m => exact ⟨m, rfl⟩
    rw [hm]
    simp [harvestLoop]
  · intro events hne hnd hin hlt
    unfold RayDistributedEvaluator.evaluate
    simp only [hresolve, List.nil_append]
    have hdr := harvestLoop_timeout_drains hWF events
      ⟨gmap, [], targets.map (fun g => g.genome_id), [], gen, nev⟩
      none targets.length
      (by simpa only [hmap] using hnodup)
      hnd
      (by
        intro r hr
        simp only [hmap]
        exact hin r hr)
      (by
        intro gid hm
        rw [hmap] at hm
        exact resolveTargets_isSome hresolve gid hm)
      (by omega)
      (fun h => absurd h hne)
    simp only at hdr
    rw [hdr]
    simp only [hmap, List.nil_append]

/-- C2 witness: pending {1,2,3}; with an empty completion stream evaluate
never returns; with only job 2 completing, evaluate returns normally, the
result list holds just that result and ids 1 and 3 stay under
evaluation. -/
theorem harvest_first_pull_unbounded_then_bounded_witness :
    RayDistributedEvaluator.evaluate
      ⟨[(1, ⟨1⟩), (2, ⟨2⟩), (3, ⟨3⟩)], [1, 2, 3], [], [], 0, 0⟩ [] =
      .blocked ∧
    RayDistributedEvaluator.evaluate
      ⟨[(1, ⟨1⟩), (2, ⟨2⟩), (3, ⟨3⟩)], [1, 2, 3], [], [], 0, 0⟩ [⟨2⟩] =
      .ok ⟨[(1, ⟨1⟩), (2, ⟨2⟩), (3, ⟨3⟩)], [], [1, 3], [⟨2⟩], 0, 0⟩ := by
  have h := harvest_first_pull_unbounded_then_bounded
    ⟨[(1, ⟨1⟩), (2, ⟨2⟩), (3, ⟨3⟩)], [1, 2, 3], [], [], 0, 0⟩
    [⟨1⟩, ⟨2⟩, ⟨3⟩] (by decide) (by decide) (by decide) rfl
  exact ⟨h.1 (by decide),
    by
      have h2 := h.2 [⟨2⟩] (by decide) (by decide) (by decide) (by decide)
      simpa using h2⟩

/-- C5 counterexample: the disjointness invariant fails DURING evaluate's
submission phase.  With pending = {1} and genome 1 resolvable, the state
right after the first submission (which appends 1 to under-evaluation
while `to_evaluate.clear()` has not run yet) has id 1 in the pending set
and in the under-evaluation set at the same time. -/
theorem pending_under_evaluation_overlap_cex :
    submissionOrder ⟨[(1, ⟨1⟩)], [1], [], [], 0, 0⟩ = some [⟨1⟩] ∧
    ∃ s ∈ submitStates ⟨[(1, ⟨1⟩)], [1], [], [], 0, 0⟩ [⟨1⟩],
      (1 : Nat) ∈ s.to_evaluate ∧ (1 : Nat) ∈ s.under_evaluation := by
  decide

/-- C5 amended: after the bulk clear that ends the submission phase, the
pending set stays empty through every point of the harvest loop and after
evaluate() returns, so from that point on each id is in at most one of
{pending, under-evaluation}; and once a result has been harvested its id
is in neither set.  During the submission phase itself a submitted id is
temporarily in both (see the counterexample). -/
theorem queue_disjointness_after_clear (pop : Population)
    (events : List EvaluationResult) (targets : List Genome)
    (hWF : genomeMapWF pop.genomes)
    (hnodup : pop.to_evaluate.Nodup)
    (hresolve : resolveTargets pop.genomes pop.to_evaluate = some targets)
    (hunder : pop.under_evaluation = []) :
    (∀ s ∈ harvestStates pop.genomes events none targets.length
        { pop with
            under_evaluation :=
              pop.under_evaluation ++ targets.map (fun g => g.genome_id),
            to_evaluate := [], evaluation_results := [] },
      s.to_evaluate = [] ∧
      ∀ res ∈ s.evaluation_results,
        res.genome_id ∉ s.under_evaluation ∧
          res.genome_id ∉ s.to_evaluate) ∧
    (∀ p', RayDistributedEvaluator.evaluate pop events = .ok p' →
      p'.to_evaluate = [] ∧
      ∀ res ∈ p'.evaluation_results,
        res.genome_id ∉ p'.under_evaluation ∧
          res.genome_id ∉ p'.to_evaluate) := by
  have hmap := resolveTargets_map hWF hresolve
  have hinv0 : QueueInv
      { pop with
          under_evaluation :=
            pop.under_evaluation ++ targets.map (fun g => g.genome_id),
          to_evaluate := [], evaluation_results := [] } := by
    refine ⟨rfl, ?_, ?_⟩
    · simp only [hunder, List.nil_append, hmap]
      exact hnodup
    · intro res hres
      cases hres
  constructor
  · intro s hs
    have hq := harvestStates_inv hWF events none targets.length _ hinv0 s hs
    refine ⟨hq.1, fun res hr => ⟨hq.2.2 res hr, ?_⟩⟩
    rw [hq.1]
    exact List.not_mem_nil _
  · intro p' hp
    unfold RayDistributedEvaluator.evaluate at hp
    simp only [hresolve] at hp
    have hq := harvestLoop_ok_inv hWF events none targets.length _ p'
      hinv0 hp
    refine ⟨hq.1, fun res hr => ⟨hq.2.2 res hr, ?_⟩⟩
    rw [hq.1]
    exact List.not_mem_nil _

/-- C5 amended witness: pending = {1,2}, job 2 completes and job 1 never
does; the invariant holds at every harvest state and at the returned
population. -/
theorem queue_disjointness_after_clear_witness :
    (∀ s ∈ harvestStates [(1, ⟨1⟩), (2, ⟨2⟩)] [⟨2⟩] none
        ([(⟨1⟩ : Genome), ⟨2⟩].length)
        { genomes := [(1, ⟨1⟩), (2, ⟨2⟩)],
          to_evaluate := [],
          under_evaluation :=
            [] ++ [(⟨1⟩ : Genome), ⟨2⟩].map (fun g => g.genome_id),
          evaluation_results := [],
          generation := 0, num_evaluations := 0 },
      s.to_evaluate = [] ∧
      ∀ res ∈ s.evaluation_results,
        res.genome_id ∉ s.under_evaluation ∧
          res.genome_id ∉ s.to_evaluate) ∧
    (∀ p', RayDistributedEvaluator.evaluate
        ⟨[(1, ⟨1⟩), (2, ⟨2⟩)], [1, 2], [], [], 0, 0⟩ [⟨2⟩] = .ok p' →
      p'.to_evaluate = [] ∧
      ∀ res ∈ p'.evaluation_results,
        res.genome_id ∉ p'.under_evaluation ∧
          res.genome_id ∉ p'.to_evaluate) :=
  queue_disjointness_after_clear
    ⟨[(1, ⟨1⟩), (2, ⟨2⟩)], [1, 2], [], [], 0, 0⟩ [⟨2⟩] [⟨1⟩, ⟨2⟩]
    (by decide) (by decide) (by decide) rfl

/-- C6 counterexample: two populations over the same genome map whose
pending sets are equal as sets ({8,16}) but iterate in different orders
(in CPython, list({8,16}) and list({16,8}) differ because 8 and 16 collide
in a size-8 hash table) produce different submission sequences: the code
iterates the set directly and performs no sorting. -/
theorem submission_order_set_dependent_cex :
    ([8, 16] : List Nat).Perm [16, 8] ∧
    submissionOrder ⟨[(8, ⟨8⟩), (16, ⟨16⟩)], [8, 16], [], [], 0, 0⟩ ≠
      submissionOrder ⟨[(8, ⟨8⟩), (16, ⟨16⟩)], [16, 8], [], [], 0, 0⟩ := by
  decide

/-- C6 amended: the submission sequence is exactly the genome-map lookup
of the pending set's iteration sequence — no sorting happens — so two
evaluate() calls agree on submission order exactly when their pending sets
iterate in the same order over the same genome map; the submitted ids are
the iteration order itself. -/
theorem submission_order_follows_iteration (pop1 pop2 : Population)
    (ts : List Genome)
    (hWF : genomeMapWF pop1.genomes)
    (hids : pop1.to_evaluate = pop2.to_evaluate)
    (hgs : pop1.genomes = pop2.genomes)
    (hts : submissionOrder pop1 = some ts) :
    submissionOrder pop1 = submissionOrder pop2 ∧
    ts.map (fun g => g.genome_id) = pop1.to_evaluate := by
  refine ⟨?_, resolveTargets_map hWF hts⟩
  unfold submissionOrder
  rw [hids, hgs]

/-- C6 amended witness: two populations with identical pending iteration
sequence submit identically, and the submitted ids follow that
sequence. -/
theorem submission_order_follows_iteration_witness :
    submissionOrder ⟨[(8, ⟨8⟩), (16, ⟨16⟩)], [16, 8], [], [], 0, 0⟩ =
      submissionOrder ⟨[(8, ⟨8⟩), (16, ⟨16⟩)], [16, 8], [], [], 1, 5⟩ ∧
    ([(⟨16⟩ : Genome), ⟨8⟩].map (fun g => g.genome_id)) = [16, 8] :=
  submission_order_follows_iteration
    ⟨[(8, ⟨8⟩), (16, ⟨16⟩)], [16, 8], [], [], 0, 0⟩
    ⟨[(8, ⟨8⟩), (16, ⟨16⟩)], [16, 8], [], [], 1, 5⟩
    [⟨16⟩, ⟨8⟩] (by decide) rfl rfl (by decide)

/-- C3: is_done() returns true iff (a generation budget is configured and
the generation counter has reached it) or (an evaluation budget is
configured and the cumulative evaluation counter has reached it); with
neither budget configured it is false for every population, so the loop
never self-terminates. -/
theorem is_done_iff_budget_reached (cfg : EABudgets) (pop : Population) :
    (EA.is_done cfg pop = true ↔
      (∃ b, cfg.num_generations = some b ∧ pop.generation ≥ b) ∨
      (∃ b, cfg.num_evaluations = some b ∧ pop.num_evaluations ≥ b)) ∧
    EA.is_done ⟨none, none⟩ pop = false := by
  refine ⟨?_, rfl⟩
  unfold EA.is_done
  cases hg : cfg.num_generations with
  | none =>
    cases he : cfg.num_evaluations with
    | none => simp
    | some b => by_cases hb : pop.num_evaluations ≥ b <;> simp [hb]
  | some a =>
    cases he : cfg.num_evaluations with
    | none => by_cases ha : pop.generation ≥ a <;> simp [ha]
    | some b =>
      by_cases ha : pop.generation ≥ a <;>
        by_cases hb : pop.num_evaluations ≥ b <;> simp [ha, hb]

/-- C4: one iteration of the generational loop performs exactly the
fifteen calls before_reproduction, reproduce, after_reproduction,
before_evaluation, evaluate, after_evaluation, before_logging, log,
after_logging, before_saving, save, after_saving, before_selection,
select, after_selection, in that fixed order, and increments the
generation counter after selection; the full run's trace is a
concatenation of such blocks, one block per generation. -/
theorem generational_loop_phase_order (r : Roles) (cfg : EABudgets)
    (pop : Population) (fuel : Nat) :
    (eaStep r pop).2 =
      [.before_reproduction, .reproduce, .after_reproduction,
       .before_evaluation, .evaluate, .after_evaluation,
       .before_logging, .log, .after_logging,
       .before_saving, .save, .after_saving,
       .before_selection, .select, .after_selection] ∧
    (eaStep r pop).1.generation =
      (r.after_selection (r.select (r.before_selection (r.after_saving
        (r.save (r.before_saving (r.after_logging (r.log (r.before_logging
        (r.after_evaluation (r.evaluate (r.before_evaluation
        (r.after_reproduction (r.reproduce (r.before_reproduction
        pop))))))))))))))).generation + 1 ∧
    (∃ k, (eaRun r cfg fuel pop).2 =
      (List.replicate k generationTrace).flatten) := by
  refine ⟨rfl, rfl, ?_⟩
  suffices hgen : ∀ (f : Nat) (p : Population),
      ∃ k, (eaRun r cfg f p).2 = (List.replicate k generationTrace).flatten by
    exact hgen fuel pop
  intro f
  induction f with
  | zero => exact fun p => ⟨0, rfl⟩
  | succ n ih =>
    intro p
    by_cases hd : EA.is_done cfg p
    · exact ⟨0, by simp [eaRun, hd]⟩
    · obtain ⟨k, hk⟩ := ih (eaStep r p).1
      refine ⟨k + 1, ?_⟩
      simp only [eaRun, hd, if_neg, Bool.false_eq_true, if_false]
      rw [List.replicate_succ, List.flatten_cons, ← hk]
      rfl

/-- C9 (code bug): the RayDistributedEvaluator config property returns
`self.config`, calling itself with no base case, so no recursion depth
produces a value; consequently __init__'s eager pool construction, whose
first step reads `self.config.num_workers`, never completes and no worker
is ever built — construction does not terminate, contradicting the claim
that it terminates and builds exactly W workers. -/
theorem ray_evaluator_construction_diverges
    (stored : DistributedEvaluatorConfig)
    (actor_generator : DistributedEvaluatorConfig → Worker) (depth : Nat) :
    RayDistributedEvaluator.configProp stored depth = none ∧
    RayDistributedEvaluator.tryInit stored actor_generator depth = none := by
  have hcfg : ∀ d, RayDistributedEvaluator.configProp stored d = none := by
    intro d
    induction d with
    | zero => rfl
    | succ n ih => rw [RayDistributedEvaluator.configProp, ih]
  refine ⟨hcfg depth, ?_⟩
  unfold RayDistributedEvaluator.tryInit
  rw [hcfg depth]

/-- C7 counterexample: the claim fails as stated.  A RangeParameter
constructed with a 3-element value (the constructor never validates)
returns a 3-element sequence on every read; and with low > high (also
unvalidated) the clipped elements cannot lie in the empty interval
[low, high]: reading bounds (1, 0) yields [0, 0] whose elements violate
1 ≤ x. -/
theorem range_read_not_two_cex :
    ((RangeParameter.readValue ⟨0, 1, some [2, 2, 2]⟩ []).1).length = 3 ∧
    (RangeParameter.readValue ⟨1, 0, none⟩ [1, 1]).1 = [0, 0] ∧
    ¬ ((1 : ℚ) ≤ 0) := by
  refine ⟨?_, ?_, by norm_num⟩ <;> decide

/-- C7 amended: for a RangeParameter whose bounds satisfy low ≤ high and
whose materialized value has 2 elements (either stored that way or drawn
as the size-2 pair), every read returns a 2-element non-decreasing
sequence within [low, high], and the clip-then-sort projection is
idempotent: a second read returns the same value and leaves the parameter
unchanged. -/
theorem range_read_projected_idempotent (p : RangeParameter)
    (draw draw2 : List ℚ) (out : List ℚ) (p1 : RangeParameter)
    (hlh : p.low ≤ p.high)
    (hdraw : p.value? = none → draw.length = 2)
    (hstored : ∀ v, p.value? = some v → v.length = 2)
    (hread : p.readValue draw = (out, p1)) :
    out.length = 2 ∧
    List.Sorted (fun a b => a ≤ b) out ∧
    (∀ x ∈ out, p.low ≤ x ∧ x ≤ p.high) ∧
    p1.readValue draw2 = (out, p1) := by
  obtain ⟨low, high, val⟩ := p
  simp only at hlh hdraw hstored hread ⊢
  cases val with
  | none =>
    have hcore := range_projection_core low high draw draw2 hlh (hdraw rfl)
    unfold RangeParameter.readValue at hread
    simp only at hread
    cases hread
    exact ⟨hcore.1, hcore.2.1, hcore.2.2.1, hcore.2.2.2⟩
  | some v =>
    have hcore := range_projection_core low high v draw2 hlh (hstored v rfl)
    unfold RangeParameter.readValue at hread
    simp only at hread
    cases hread
    exact ⟨hcore.1, hcore.2.1, hcore.2.2.1, hcore.2.2.2⟩

/-- C7 amended witness: bounds [0, 1], stored value [3, -1]; the read
clips to [1, 0], sorts to [0, 1], and a second read is a no-op. -/
theorem range_read_projected_idempotent_witness :
    (([0, 1] : List ℚ).length = 2 ∧
      List.Sorted (fun a b => a ≤ b) ([0, 1] : List ℚ) ∧
      (∀ x ∈ ([0, 1] : List ℚ), (0 : ℚ) ≤ x ∧ x ≤ 1) ∧
      RangeParameter.readValue ⟨0, 1, some [0, 1]⟩ [] =
        ([0, 1], ⟨0, 1, some [0, 1]⟩)) := by
  have h := range_read_projected_idempotent ⟨0, 1, some [3, -1]⟩ [] []
    [0, 1] ⟨0, 1, some [0, 1]⟩ (by norm_num)
    (by intro hx; cases hx)
    (by intro v hv; cases hv; rfl)
    (by decide)
  exact h

/-- C8 counterexample: the claim fails for ContinuousParameter.  Its
setter assigns without any validation, so writing 5 into bounds [0, 1]
raises nothing and stores 5 (a later read silently clips it to 1). -/
theorem continuous_write_unvalidated_cex :
    ContinuousParameter.setValue ⟨0, 1, none⟩ 5 = ⟨0, 1, some 5⟩ ∧
    ¬ ((0 : ℚ) ≤ 5 ∧ (5 : ℚ) ≤ 1) ∧
    (ContinuousParameter.readValue ⟨0, 1, some 5⟩ 0).1 = 1 := by
  refine ⟨rfl, by norm_num, by decide⟩

/-- C8 amended: writes to Fixed and Synchronized parameters fail
unconditionally with a TypeError; writes to Continuous parameters are
never validated (the value is stored as given, bounds apply only at later
reads); writes to Range parameters always raise a TypeError regardless of
the written value, because the assert compares the bounds against the
materialized current-value list rather than the argument; only Discrete
and MultiDiscrete writes perform the domain check, raising an
AssertionError exactly when a written element is not in the option set. -/
theorem write_validation_by_variant
    (p1 : FixedParameter ℤ) (v1 : ℤ)
    (p2 : SynchronizedParameter ℤ) (v2 : ℤ)
    (p3 : ContinuousParameter) (v3 : ℚ)
    (p4 : RangeParameter) (v4 draw : List ℚ)
    (p5 : DiscreteParameter ℤ) (v5 : ℤ)
    (p6 : MultiDiscreteParameter ℤ) (v6 : List ℤ) :
    p1.setValue v1 = .error .typeError ∧
    p2.setValue v2 = .error .typeError ∧
    p3.setValue v3 = { p3 with value? := some v3 } ∧
    (p4.setValue v4 draw).1 = .typeError ∧
    (p5.setValue v5 = .error .assertionError ↔ v5 ∉ p5.options) ∧
    (v5 ∈ p5.options → p5.setValue v5 = .ok { p5 with value? := some v5 }) ∧
    (p6.setValue v6 = .error .assertionError ↔ ¬ ∀ x ∈ v6, x ∈ p6.options) ∧
    ((∀ x ∈ v6, x ∈ p6.options) →
      p6.setValue v6 = .ok { p6 with value? := some v6 }) := by
  refine ⟨rfl, rfl, rfl, rfl, ?_, ?_, ?_, ?_⟩
  · unfold DiscreteParameter.setValue
    by_cases hm : v5 ∈ p5.options <;> simp [hm]
  · intro hm
    unfold DiscreteParameter.setValue
    simp [hm]
  · unfold MultiDiscreteParameter.setValue
    by_cases hm : ∀ x ∈ v6, x ∈ p6.options <;>
      simp [List.all_eq_true, hm]
  · intro hm
    have hall : v6.all (fun v => v ∈ p6.options) = true := by
      simp only [List.all_eq_true, decide_eq_true_eq]
      exact hm
    unfold MultiDiscreteParameter.setValue
    simp [hall]

/-- C8 amended witness: concrete writes of every variant: Fixed rejects,
Continuous stores 5 outside [0, 1] without error, Range raises TypeError
even for an in-range value, Discrete rejects a non-member and accepts a
member, MultiDiscrete rejects a list containing a non-member. -/
theorem write_validation_by_variant_witness :
    FixedParameter.setValue ⟨(7 : ℤ)⟩ 8 = .error .typeError ∧
    ContinuousParameter.setValue ⟨0, 1, none⟩ 5 = ⟨0, 1, some 5⟩ ∧
    (RangeParameter.setValue ⟨0, 1, some [0, 1]⟩ [0, 1] []).1 =
      .typeError ∧
    DiscreteParameter.setValue ⟨([1, 2] : List ℤ), none⟩ 5 =
      .error .assertionError ∧
    DiscreteParameter.setValue ⟨([1, 2] : List ℤ), none⟩ 2 =
      .ok ⟨[1, 2], some 2⟩ ∧
    MultiDiscreteParameter.setValue ⟨([1, 2] : List ℤ), 0, 2, none, false⟩
      [1, 3] = .error .assertionError := by
  have ha := write_validation_by_variant ⟨(7 : ℤ)⟩ 8 ⟨(0 : ℤ)⟩ 0
    ⟨0, 1, none⟩ 5 ⟨0, 1, some [0, 1]⟩ [0, 1] [] ⟨[1, 2], none⟩ 5
    ⟨[1, 2], 0, 2, none, false⟩ [1, 3]
  have hb := write_validation_by_variant ⟨(7 : ℤ)⟩ 8 ⟨(0 : ℤ)⟩ 0
    ⟨0, 1, none⟩ 5 ⟨0, 1, some [0, 1]⟩ [0, 1] [] ⟨[1, 2], none⟩ 2
    ⟨[1, 2], 0, 2, none, false⟩ [1, 3]
  refine ⟨ha.1, ha.2.2.1, ha.2.2.2.1, ?_, ?_, ?_⟩
  · exact ha.2.2.2.2.1.mpr (by decide)
  · exact hb.2.2.2.2.2.1 (by decide)
  · exact ha.2.2.2.2.2.2.1.mpr (by decide)

/-- C10: values supplied at construction of Discrete/MultiDiscrete
parameters are never validated: with a stored non-None value outside the
option set, every read returns it unchanged (MultiDiscrete: sorted when
the sort flag is set), and re-reads return the same; MultiDiscrete applies
no size or duplicate check either (the stored list below is quantified
over arbitrary lists containing a non-member). -/
theorem discrete_constructor_value_unvalidated
    (options : List ℤ) (v : ℤ) (hv : v ∉ options)
    (opts2 : List ℤ) (vs : List ℤ) (hvs : ∃ x ∈ vs, x ∉ opts2)
    (minS maxS : Nat) (sflag : Bool) (draw : ℤ) (draws draws2 : List ℤ) :
    DiscreteParameter.readValue ⟨options, some v⟩ draw =
      (v, ⟨options, some v⟩) ∧
    (MultiDiscreteParameter.readValue
        ⟨opts2, minS, maxS, some vs, sflag⟩ draws).1 =
      (if sflag then vs.insertionSort (fun a b => a ≤ b) else vs) ∧
    ((MultiDiscreteParameter.readValue
        ⟨opts2, minS, maxS, some vs, sflag⟩ draws).2.readValue draws2).1 =
      (if sflag then vs.insertionSort (fun a b => a ≤ b) else vs) := by
  refine ⟨rfl, rfl, ?_⟩
  unfold MultiDiscreteParameter.readValue
  cases sflag with
  | false => simp
  | true => simp [insertionSort_idem]

/-- C10 witness: options {1, 2} with stored value 5 (Discrete) and stored
list [3, 3, 3] (MultiDiscrete, sort flag set, max size 2): reads return
them although 5 and 3 are not options and [3, 3, 3] is oversized with
duplicates. -/
theorem discrete_constructor_value_unvalidated_witness :
    DiscreteParameter.readValue ⟨([1, 2] : List ℤ), some 5⟩ 0 =
      (5, ⟨[1, 2], some 5⟩) ∧
    (MultiDiscreteParameter.readValue
        ⟨([1, 2] : List ℤ), 0, 2, some [3, 3, 3], true⟩ []).1 =
      (if true then ([3, 3, 3] : List ℤ).insertionSort (fun a b => a ≤ b)
        else [3, 3, 3]) ∧
    ((MultiDiscreteParameter.readValue
        ⟨([1, 2] : List ℤ), 0, 2, some [3, 3, 3], true⟩ []).2.readValue
        []).1 =
      (if true then ([3, 3, 3] : List ℤ).insertionSort (fun a b => a ≤ b)
        else [3, 3, 3]) :=
  discrete_constructor_value_unvalidated [1, 2] 5 (by decide)
    [1, 2] [3, 3, 3] (by decide) 0 2 true 0 [] []
